import Mathlib

/-! Assignment tracker: server handlers and client pagination state.

A shallow embedding of `src/myServer/index.js` (the Express route handlers over the
in-memory array `assignments` and the file `data.json`) and of the pagination state of
`src/myClient/js/script.js`.

Modelling conventions.

* JavaScript numbers are modelled by `JsNum`: an integer-valued double, `NaN`, `Infinity`
  or `-Infinity`.  The result of every arithmetic operation is rounded to the nearest
  double, ties to even (`JsNum.round`): integers up to `2^53` in absolute value are exact,
  larger ones keep 53 significant bits, and from `2^1024 - 2^970` on the result is infinite.
  The sign of zero is not modelled: `-0` behaves as `0` in every operation used here.
* Route and query parameters enter the handlers through `parseInt`; the handlers of
  the model take the value `parseInt` returned (a `JsNum`).  For the decimal numeral of an
  integer `n` that value is `JsNum.ofInt n`.
* Request bodies are typed by the request schema declared next to each route
  (`name : string`, `dueDate : string`, `submitted : boolean`); a field that is
  absent (`undefined`) is `none`.
* A record's `id` is an integer, or `none` when the record carries no `id`.
* The store is a list of records in array order; `dataFile` is the array last written
  to `data.json`.
-/

namespace Assignments

/-! ## JavaScript values -/

/-- A JavaScript number as the handlers see it: an integer, `NaN`, `Infinity` or
`-Infinity`. -/
inductive JsNum where
  | int (n : Int)
  | nan
  | posInf
  | negInf
deriving DecidableEq

namespace JsNum

/-- The least magnitude that rounds to an infinity: halfway between the largest double,
`2^1024 - 2^971`, and `2^1024`. -/
def overflowBound : Nat := 2 ^ 1024 - 2 ^ 970

/-- The Number value of a mathematical integer: the nearest double, ties to even.  Up to
`2^53` in absolute value every integer is a double; beyond, the 53 leading bits `q` are kept
and the remainder `r` decides the rounding; from `overflowBound` on the value is infinite. -/
def round (x : Int) : JsNum :=
  let m := x.natAbs
  if m ≤ 2 ^ 53 then int x
  else if overflowBound ≤ m then (if 0 < x then posInf else negInf)
  else
    let e := Nat.log2 m - 52
    let q := m / 2 ^ e
    let r := m % 2 ^ e
    let half := 2 ^ (e - 1)
    let q' := if half < r ∨ (r = half ∧ q % 2 = 1) then q + 1 else q
    if 0 < x then int ((q' * 2 ^ e : Nat) : Int) else int (-((q' * 2 ^ e : Nat) : Int))

/-- The value of `parseInt` on the decimal numeral of the integer `n`. -/
def ofInt (n : Int) : JsNum :=
  round n

/-- JavaScript `a - b`. -/
def sub : JsNum → JsNum → JsNum
  | int a, int b => round (a - b)
  | int _, posInf => negInf
  | int _, negInf => posInf
  | posInf, int _ => posInf
  | posInf, negInf => posInf
  | negInf, int _ => negInf
  | negInf, posInf => negInf
  | posInf, posInf => nan
  | negInf, negInf => nan
  | nan, _ => nan
  | int _, nan => nan
  | posInf, nan => nan
  | negInf, nan => nan

/-- An infinity with the sign of the integer `b`, and `NaN` when `b = 0`. -/
def infTimes (positive : Bool) (b : Int) : JsNum :=
  if b = 0 then nan
  else if decide (0 < b) = positive then posInf
  else negInf

/-- JavaScript `a * b`. -/
def mul : JsNum → JsNum → JsNum
  | int a, int b => round (a * b)
  | int a, posInf => infTimes true a
  | int a, negInf => infTimes false a
  | posInf, int b => infTimes true b
  | negInf, int b => infTimes false b
  | posInf, posInf => posInf
  | posInf, negInf => negInf
  | negInf, posInf => negInf
  | negInf, negInf => posInf
  | nan, _ => nan
  | int _, nan => nan
  | posInf, nan => nan
  | negInf, nan => nan

/-- JavaScript `a + b` on numbers. -/
def add : JsNum → JsNum → JsNum
  | int a, int b => round (a + b)
  | int _, posInf => posInf
  | int _, negInf => negInf
  | posInf, int _ => posInf
  | posInf, posInf => posInf
  | negInf, int _ => negInf
  | negInf, negInf => negInf
  | posInf, negInf => nan
  | negInf, posInf => nan
  | nan, _ => nan
  | int _, nan => nan
  | posInf, nan => nan
  | negInf, nan => nan

/-- The abstract operation `ToIntegerOrInfinity`: `NaN` becomes `0`. -/
def toIntegerOrInfinity : JsNum → JsNum
  | nan => int 0
  | v => v

/-- A number as the id of a record.  Record ids are finite: the sum of a double and `1`
is never infinite, so the last case is not reached from ids that are doubles. -/
def toId : JsNum → Option Int
  | int n => some n
  | _ => none

/-- The number is `Infinity` or an integer that is at least `t`. -/
def atLeast (t : Int) : JsNum → Prop
  | int z => t ≤ z
  | posInf => True
  | _ => False

end JsNum

/-- The index computation of `Array.prototype.slice` on a relative index: `-Infinity` gives
`0`, a negative index counts from the end, and the result is clamped to `[0, len]`. -/
def relativeIndex (len : Int) : JsNum → Int
  | JsNum.negInf => 0
  | JsNum.posInf => len
  | JsNum.int r => if r < 0 then max (len + r) 0 else min r len
  | JsNum.nan => 0

/-- `Array.prototype.slice(start, end)`: both bounds are turned into indices in
`[0, length]`, and `max (final - k) 0` elements are copied from index `k` on. -/
def slice {α : Type} (l : List α) (start stop : JsNum) : List α :=
  let len : Int := l.length
  let k : Int := relativeIndex len start.toIntegerOrInfinity
  let final : Int := relativeIndex len stop.toIntegerOrInfinity
  (l.drop k.toNat).take (final - k).toNat

/-- `Array.prototype.findIndex`, scanning from position `i`: the index of the first
element satisfying `p`, or `-1`. -/
def findIndexFrom {α : Type} (p : α → Bool) : List α → Nat → Int
  | [], _ => -1
  | a :: as, i => if p a then (i : Int) else findIndexFrom p as (i + 1)

/-- `Array.prototype.findIndex`. -/
def findIndex {α : Type} (p : α → Bool) (l : List α) : Int :=
  findIndexFrom p l 0

/-- `Array.prototype.splice(start, 1)` for `0 ≤ start`: removes the element at `start`. -/
def splice1 {α : Type} (l : List α) (start : Int) : List α :=
  l.eraseIdx start.toNat

/-- In-place mutation of the object returned by `Array.prototype.find`: the first
element satisfying `p` is replaced by its mutated version. -/
def mutateFirst {α : Type} (p : α → Bool) (f : α → α) : List α → List α
  | [] => []
  | a :: as => if p a then f a :: as else a :: mutateFirst p f as

/-! ## Data model -/

/-- An assignment record. -/
structure Assignment where
  id : Option Int
  name : Option String
  dueDate : Option String
  submitted : Option Bool
deriving DecidableEq

/-- A request body (`req.body`) of `POST` and `PUT`. -/
structure ReqBody where
  name : Option String
  dueDate : Option String
  submitted : Option Bool
deriving DecidableEq

/-- The body of a response. -/
inductive ResBody where
  | records (l : List Assignment)
  | record (a : Assignment)
  | count (n : Nat)
  | error (msg : String)
  | text (msg : String)
  | empty
deriving DecidableEq

/-- An HTTP response: status code and body. -/
structure Response where
  status : Nat
  body : ResBody
deriving DecidableEq

/-- The server state: the array `assignments` and the contents of `data.json`. -/
structure Server where
  assignments : List Assignment
  dataFile : List Assignment
deriving DecidableEq

/-- Process start: `let assignments = require("./data.json")`. -/
def boot (file : List Assignment) : Server :=
  { assignments := file, dataFile := file }

/-- A process restart: the array is loaded again from the file. -/
def restart (s : Server) : Server :=
  boot s.dataFile

/-- The strict comparison `a.id === parseInt(req.params.id)`. -/
def idMatches (n : JsNum) (a : Assignment) : Bool :=
  match a.id, n with
  | some i, JsNum.int j => i == j
  | _, _ => false

/-- Truthiness of a string-valued field: absent and `""` are falsy. -/
def truthyStr : Option String → Bool
  | some s => s != ""
  | none => false

/-- The value of `x || 0` for an id. -/
def orZero : Option Int → Int
  | some i => if i = 0 then 0 else i
  | none => 0

/-- The value of `x || false` for a boolean field. -/
def orFalse : Option Bool → Bool
  | some b => b || false
  | none => false

/-! ## Route handlers -/

/-- The handler of `GET /api/assignments`.  A query parameter that is absent takes its default
(`page = 1`, `limit = 10`); one that is present is given by its `parseInt`. -/
def getAssignments (s : Server) (page limit : Option JsNum) : Server × Response :=
  let page := page.getD (JsNum.int 1)
  let limit := limit.getD (JsNum.int 10)
  let startIndex := (page.sub (JsNum.int 1)).mul limit
  let endIndex := startIndex.add limit
  let paginatedAssignments := slice s.assignments startIndex endIndex
  (s, { status := 200, body := ResBody.records paginatedAssignments })

/-- The handler of `GET /api/assignments/count`. -/
def getCount (s : Server) : Server × Response :=
  (s, { status := 200, body := ResBody.count s.assignments.length })

/-- The handler of `GET /api/assignments/:id`. -/
def getAssignment (s : Server) (id : JsNum) : Server × Response :=
  match s.assignments.find? (idMatches id) with
  | none => (s, { status := 404, body := ResBody.text "Assignment not found" })
  | some assignment => (s, { status := 200, body := ResBody.record assignment })

/-- The fields checked by `POST`. -/
def requiredFields : List String := ["name", "dueDate"]

/-- The lookup `req.body[field]` for the required fields. -/
def ReqBody.field (b : ReqBody) (field : String) : Option String :=
  if field = "name" then b.name
  else if field = "dueDate" then b.dueDate
  else none

/-- The loop over `requiredFields`: the first field whose value is falsy. -/
def firstMissing (b : ReqBody) : List String → Option String
  | [] => none
  | field :: rest => if !truthyStr (b.field field) then some field else firstMissing b rest

/-- The handler of `POST /api/assignments`.  Reading `.id` of `assignments[length - 1]`
on an empty array throws a `TypeError`, which the error middleware answers with 500.
The sum `lastId + 1` is a sum of doubles. -/
def postAssignment (s : Server) (b : ReqBody) : Server × Response :=
  match firstMissing b requiredFields with
  | some field =>
    (s, { status := 400, body := ResBody.error ("Missing required field: " ++ field) })
  | none =>
    match s.assignments[s.assignments.length - 1]? with
    | none => (s, { status := 500, body := ResBody.text "Something went wrong!" })
    | some last =>
      let lastId := orZero last.id
      let newAssignment : Assignment :=
        { id := ((JsNum.int lastId).add (JsNum.int 1)).toId
          name := b.name
          dueDate := b.dueDate
          submitted := some (orFalse b.submitted) }
      let assignments := s.assignments ++ [newAssignment]
      ({ assignments := assignments, dataFile := assignments },
        { status := 201, body := ResBody.record newAssignment })

/-- The three assignments of `PUT`: `name`, `dueDate` and `submitted` are overwritten. -/
def overwrite (b : ReqBody) (a : Assignment) : Assignment :=
  { a with name := b.name, dueDate := b.dueDate, submitted := b.submitted }

/-- The handler of `PUT /api/assignments/:id`. -/
def putAssignment (s : Server) (id : JsNum) (b : ReqBody) : Server × Response :=
  match s.assignments.find? (idMatches id) with
  | none => (s, { status := 404, body := ResBody.text "Assignment not found" })
  | some assignment =>
    ({ s with assignments := mutateFirst (idMatches id) (overwrite b) s.assignments },
      { status := 200, body := ResBody.record (overwrite b assignment) })

/-- The handler of `DELETE /api/assignments/:id`. -/
def deleteAssignment (s : Server) (id : JsNum) : Server × Response :=
  let assignmentIndex := findIndex (idMatches id) s.assignments
  if assignmentIndex = -1 then
    (s, { status := 404, body := ResBody.text "Assignment not found" })
  else
    ({ s with assignments := splice1 s.assignments assignmentIndex },
      { status := 204, body := ResBody.empty })

/-! ## Client pagination state -/

/-- `Math.ceil(a / b)` for integers `a` and `b > 0`. -/
def ceilDiv (a b : Int) : Int :=
  -((-a) / b)

/-- The pagination state of the client script. -/
structure Client where
  currentPage : Int
  limit : Int
  totalAssignments : Int
  totalPages : Int
deriving DecidableEq

/-- The initial values of the script's variables. -/
def Client.init : Client :=
  { currentPage := 1, limit := 5, totalAssignments := 0, totalPages := 1 }

/-- The `disabled` flags of the four pagination buttons. -/
structure Buttons where
  prevPage : Bool
  nextPage : Bool
  firstPage : Bool
  lastPage : Bool
deriving DecidableEq

/-- The function `updatePaginationButtons`. -/
def updatePaginationButtons (c : Client) : Buttons :=
  { prevPage := decide (c.currentPage ≤ 1)
    nextPage := decide (c.currentPage ≥ c.totalPages)
    firstPage := decide (c.currentPage = 1)
    lastPage := decide (c.currentPage = c.totalPages) }

/-- The state update of `fetchTotalAssignments` once the count has arrived. -/
def fetchTotalAssignments (c : Client) (count : Int) : Client :=
  { c with totalAssignments := count, totalPages := ceilDiv count c.limit }

/-- The state update of `sendGetAssignmentsRequest(page)` once the page has arrived. -/
def sendGetAssignmentsRequest (c : Client) (page : Int) : Client :=
  { c with currentPage := page }

/-! ## Sequences of operations -/

/-- A mutating request. -/
inductive Op where
  | create (b : ReqBody)
  | update (id : JsNum) (b : ReqBody)
  | delete (id : JsNum)
deriving DecidableEq

/-- Whether a request is a `POST`. -/
def Op.isCreate : Op → Bool
  | Op.create _ => true
  | _ => false

/-- The server state after one request. -/
def step (s : Server) : Op → Server
  | Op.create b => (postAssignment s b).1
  | Op.update id b => (putAssignment s id b).1
  | Op.delete id => (deleteAssignment s id).1

/-- The server state after a sequence of requests, handled one after the other. -/
def run (s : Server) (ops : List Op) : Server :=
  ops.foldl step s

/-- Whether the request, handled in state `s`, reaches `fs.writeFile`: it is a `POST` that
is answered with 201. -/
def Op.writes (s : Server) : Op → Bool
  | Op.create b => (postAssignment s b).2.status == 201
  | _ => false

/-- No request of the sequence, each handled in the state the earlier ones leave, reaches
`fs.writeFile`. -/
def noWrite (s : Server) : List Op → Bool
  | [] => true
  | o :: os => !(o.writes s) && noWrite (step s o) os

/-- The ids of the store, in store order. -/
def ids (s : Server) : List (Option Int) :=
  s.assignments.map (fun a => a.id)

/-! ## Sample states -/

/-- A store of seven records with ids 1 to 7. -/
def sevenRecords : Server :=
  boot (([1, 2, 3, 4, 5, 6, 7] : List Int).map fun i =>
    { id := some i, name := some "A", dueDate := some "D", submitted := some false })

/-- A store whose last record has id 5. -/
def endsInFive : Server :=
  boot [ { id := some 3, name := some "A", dueDate := some "D", submitted := some true },
         { id := some 5, name := some "C", dueDate := some "E", submitted := some false } ]

/-- A store holding the single record `{id: 1, name: "A", dueDate: "D", submitted: true}`. -/
def oneRecord : Server :=
  boot [ { id := some 1, name := some "A", dueDate := some "D", submitted := some true } ]

/-- A store whose only record has id `2^53`. -/
def endsInTwoPow53 : Server :=
  boot [ { id := some 9007199254740992, name := some "A", dueDate := some "D",
           submitted := some true } ]

/-- A store with pairwise distinct ids whose last record does not carry the largest id. -/
def unsortedStore : Server :=
  boot [ { id := some 2, name := some "A", dueDate := some "D", submitted := some true },
         { id := some 1, name := some "B", dueDate := some "E", submitted := some false } ]

/-- A store with ids `[5, 1]`: the last record does not carry the largest id, and the id a
Create assigns, 2, is free. -/
def fiveOne : Server :=
  boot [ { id := some 5, name := some "A", dueDate := some "D", submitted := none },
         { id := some 1, name := some "C", dueDate := some "E", submitted := none } ]

/-- A valid request body. -/
def hw1 : ReqBody :=
  { name := some "HW1", dueDate := some "2024-05-01", submitted := none }

/-- The store used to show persistence of an update and of a delete. -/
def twoRecords : Server :=
  boot [ { id := some 1, name := some "A", dueDate := some "D", submitted := some true },
         { id := some 2, name := some "C", dueDate := some "E", submitted := some false } ]

/-- An update of record 1, a delete of record 2, then a create. -/
def updateDeleteCreate : List Op :=
  [ Op.update (JsNum.int 1) { name := some "B", dueDate := none, submitted := none },
    Op.delete (JsNum.int 2),
    Op.create hw1 ]

/-- The client state after the count `0` has arrived. -/
def emptyStoreClient : Client :=
  fetchTotalAssignments Client.init 0

/-! ## Arithmetic and list lemmas -/

theorem two_pow_53_lt_overflowBound : 2 ^ 53 < JsNum.overflowBound := by
  unfold JsNum.overflowBound
  norm_num

theorem round_small (x : Int) (h : x.natAbs ≤ 2 ^ 53) : JsNum.round x = JsNum.int x := by
  unfold JsNum.round
  simp only [h, if_true]

theorem round_of_nonneg_le (x : Int) (h0 : 0 ≤ x) (h : x ≤ 2 ^ 53) :
    JsNum.round x = JsNum.int x := by
  apply round_small
  have : ((x.natAbs : Nat) : Int) ≤ ((2 ^ 53 : Nat) : Int) := by
    rw [Int.natAbs_of_nonneg h0]; exact_mod_cast h
  exact_mod_cast this

theorem round_eq_posInf_iff (x : Int) :
    JsNum.round x = JsNum.posInf ↔ (JsNum.overflowBound : Int) ≤ x := by
  unfold JsNum.round
  have hlt := two_pow_53_lt_overflowBound
  generalize JsNum.overflowBound = B at hlt
  by_cases h1 : x.natAbs ≤ 2 ^ 53
  · simp only [h1, if_true]
    constructor
    · intro h; exact JsNum.noConfusion h
    · intro h; exfalso; omega
  · simp only [h1, if_false]
    by_cases h2 : B ≤ x.natAbs
    · simp only [h2, if_true]
      by_cases h3 : 0 < x
      · simp only [h3, if_true, true_iff]; omega
      · simp only [h3, if_false]
        constructor
        · intro h; exact JsNum.noConfusion h
        · intro h; omega
    · simp only [h2, if_false]
      constructor
      · intro h
        split at h <;> exact JsNum.noConfusion h
      · intro h; omega

theorem atLeast_mono (t u : Int) (v : JsNum) (h : u ≤ t) (hv : JsNum.atLeast t v) :
    JsNum.atLeast u v := by
  cases v with
  | int z => exact le_trans h hv
  | posInf => trivial
  | nan => exact hv
  | negInf => exact hv

theorem round_big (x : Int) (h : 2 ^ 53 ≤ x) : JsNum.atLeast (2 ^ 53) (JsNum.round x) := by
  unfold JsNum.round
  have hx : 0 < x := by
    have : (0 : Int) < 2 ^ 53 := by norm_num
    omega
  by_cases h1 : x.natAbs ≤ 2 ^ 53
  · rw [if_pos h1]; exact h
  · rw [if_neg h1]
    generalize JsNum.overflowBound = B
    by_cases h2 : B ≤ x.natAbs
    · rw [if_pos h2, if_pos hx]; trivial
    · rw [if_neg h2, if_pos hx]
      clear h2
      show (2 : Int) ^ 53 ≤ _
      have hm0 : x.natAbs ≠ 0 := by omega
      have h53 : 2 ^ 53 ≤ x.natAbs := by omega
      have hn : 53 ≤ Nat.log2 x.natAbs := (Nat.le_log2 hm0).mpr h53
      have hle : 2 ^ Nat.log2 x.natAbs ≤ x.natAbs := (Nat.le_log2 hm0).mp (le_refl _)
      generalize Nat.log2 x.natAbs = n at hn hle
      generalize x.natAbs = m at hle
      have he : n = (n - 52) + 52 := by omega
      have hq : 2 ^ 52 ≤ m / 2 ^ (n - 52) := by
        rw [Nat.le_div_iff_mul_le (Nat.pos_pow_of_pos _ (by norm_num))]
        rw [← pow_add, Nat.add_comm, ← he]
        exact hle
      have hq' : m / 2 ^ (n - 52) ≤
          (if 2 ^ (n - 52 - 1) < m % 2 ^ (n - 52) ∨
              (m % 2 ^ (n - 52) = 2 ^ (n - 52 - 1) ∧ m / 2 ^ (n - 52) % 2 = 1)
            then m / 2 ^ (n - 52) + 1 else m / 2 ^ (n - 52)) := by
        split <;> omega
      have hp : 2 ^ 1 ≤ 2 ^ (n - 52) := Nat.pow_le_pow_right (by norm_num) (by omega)
      have : 2 ^ 52 * 2 ^ 1 ≤
          (if 2 ^ (n - 52 - 1) < m % 2 ^ (n - 52) ∨
              (m % 2 ^ (n - 52) = 2 ^ (n - 52 - 1) ∧ m / 2 ^ (n - 52) % 2 = 1)
            then m / 2 ^ (n - 52) + 1 else m / 2 ^ (n - 52)) * 2 ^ (n - 52) :=
        Nat.mul_le_mul (le_trans hq hq') hp
      have e53 : (2 : Int) ^ 53 = ((2 ^ 52 * 2 ^ 1 : Nat) : Int) := by norm_num
      rw [e53]
      exact_mod_cast this

theorem round_atLeast (t x : Int) (ht0 : 0 ≤ t) (htP : t ≤ 2 ^ 53) (h : t ≤ x) :
    JsNum.atLeast t (JsNum.round x) := by
  by_cases hx : x ≤ 2 ^ 53
  · rw [round_of_nonneg_le x (le_trans ht0 h) hx]; exact h
  · exact atLeast_mono _ _ _ htP (round_big x (by omega))

theorem ofInt_cases (x : Int) (h0 : 0 ≤ x) :
    (x ≤ 2 ^ 53 ∧ JsNum.ofInt x = JsNum.int x) ∨
    (2 ^ 53 < x ∧ JsNum.atLeast (2 ^ 53) (JsNum.ofInt x)) := by
  by_cases hx : x ≤ 2 ^ 53
  · exact Or.inl ⟨hx, round_of_nonneg_le x h0 hx⟩
  · exact Or.inr ⟨by omega, round_big x (by omega)⟩

theorem sub_one_atLeast (v : JsNum) (h : JsNum.atLeast (2 ^ 53) v) :
    JsNum.atLeast (2 ^ 53 - 1) (v.sub (JsNum.int 1)) := by
  cases v with
  | int z =>
    have hz : (2 : Int) ^ 53 ≤ z := h
    exact round_atLeast _ _ (by norm_num) (by norm_num) (by omega)
  | posInf => trivial
  | nan => exact h
  | negInf => exact h

theorem mul_atLeast (t : Int) (a b : JsNum) (ht1 : 1 ≤ t) (htP : t ≤ 2 ^ 53)
    (ha : JsNum.atLeast t a) (hb : JsNum.atLeast 1 b) : JsNum.atLeast t (a.mul b) := by
  cases a with
  | int w =>
    have hw : t ≤ w := ha
    cases b with
    | int z =>
      have hz : (1 : Int) ≤ z := hb
      exact round_atLeast _ _ (by omega) htP (by nlinarith)
    | posInf =>
      have h0 : w ≠ 0 := by omega
      have h1 : 0 < w := by omega
      simp [JsNum.mul, JsNum.infTimes, h0, h1, JsNum.atLeast]
    | nan => exact False.elim hb
    | negInf => exact False.elim hb
  | posInf =>
    cases b with
    | int z =>
      have hz : (1 : Int) ≤ z := hb
      have h0 : z ≠ 0 := by omega
      have h1 : 0 < z := by omega
      simp [JsNum.mul, JsNum.infTimes, h0, h1, JsNum.atLeast]
    | posInf => trivial
    | nan => exact False.elim hb
    | negInf => exact False.elim hb
  | nan => exact False.elim ha
  | negInf => exact False.elim ha

theorem mul_atLeast_right (t : Int) (a b : JsNum) (ht1 : 1 ≤ t) (htP : t ≤ 2 ^ 53)
    (ha : JsNum.atLeast 1 a) (hb : JsNum.atLeast t b) : JsNum.atLeast t (a.mul b) := by
  cases a with
  | int w =>
    have hw : (1 : Int) ≤ w := ha
    cases b with
    | int z =>
      have hz : t ≤ z := hb
      exact round_atLeast _ _ (by omega) htP (by nlinarith)
    | posInf =>
      have h0 : w ≠ 0 := by omega
      have h1 : 0 < w := by omega
      simp [JsNum.mul, JsNum.infTimes, h0, h1, JsNum.atLeast]
    | nan => exact False.elim hb
    | negInf => exact False.elim hb
  | posInf =>
    cases b with
    | int z =>
      have hz : t ≤ z := hb
      have h0 : z ≠ 0 := by omega
      have h1 : 0 < z := by omega
      simp [JsNum.mul, JsNum.infTimes, h0, h1, JsNum.atLeast]
    | posInf => trivial
    | nan => exact False.elim hb
    | negInf => exact False.elim hb
  | nan => exact False.elim ha
  | negInf => exact False.elim ha

theorem slice_nonneg {α : Type} (l : List α) (a L : Int) (ha : 0 ≤ a) (hL : 0 ≤ L) :
    slice l (JsNum.int a) (JsNum.int (a + L)) = (l.drop a.toNat).take L.toNat := by
  have h1 : ¬ a < 0 := by omega
  have h2 : ¬ a + L < 0 := by omega
  simp only [slice, JsNum.toIntegerOrInfinity, relativeIndex, h1, h2, if_false]
  by_cases hN : a ≤ (l.length : Int)
  · rw [min_eq_left hN]
    by_cases hN2 : a + L ≤ (l.length : Int)
    · rw [min_eq_left hN2]
      congr 1
      omega
    · rw [min_eq_right (by omega)]
      rw [List.take_of_length_le, List.take_of_length_le]
      · simp only [List.length_drop]; omega
      · simp only [List.length_drop]; omega
  · rw [min_eq_right (by omega), min_eq_right (by omega)]
    have e1 : l.drop (l.length : Int).toNat = [] := by
      apply List.drop_of_length_le; omega
    have e2 : l.drop a.toNat = [] := by
      apply List.drop_of_length_le; omega
    rw [e1, e2]; simp

theorem relativeIndex_le (len : Int) (h : 0 ≤ len) (v : JsNum) :
    relativeIndex len v.toIntegerOrInfinity ≤ len := by
  cases v with
  | int r =>
    simp only [JsNum.toIntegerOrInfinity, relativeIndex]
    split
    · exact max_le (by omega) h
    · exact min_le_right _ _
  | nan => simp [JsNum.toIntegerOrInfinity, relativeIndex]
  | posInf => simp [JsNum.toIntegerOrInfinity, relativeIndex]
  | negInf => simpa [JsNum.toIntegerOrInfinity, relativeIndex] using h

theorem relativeIndex_atLeast (len : Int) (h : 0 ≤ len) (v : JsNum)
    (hv : JsNum.atLeast len v) : relativeIndex len v.toIntegerOrInfinity = len := by
  cases v with
  | int r =>
    have hr : len ≤ r := hv
    have h1 : ¬ r < 0 := by omega
    simp only [JsNum.toIntegerOrInfinity, relativeIndex, h1, if_false]
    exact min_eq_right hr
  | nan => exact False.elim hv
  | posInf => rfl
  | negInf => exact False.elim hv

theorem slice_atLeast_start {α : Type} (l : List α) (c d : JsNum)
    (hc : JsNum.atLeast (l.length : Int) c) : slice l c d = [] := by
  have hk := relativeIndex_atLeast (l.length : Int) (by omega) c hc
  simp only [slice, hk]
  rw [List.drop_of_length_le (by omega), List.take_nil]

theorem slice_atLeast_stop {α : Type} (l : List α) (a : Int) (d : JsNum) (ha : 0 ≤ a)
    (hd : JsNum.atLeast (l.length : Int) d) : slice l (JsNum.int a) d = l.drop a.toNat := by
  have hf := relativeIndex_atLeast (l.length : Int) (by omega) d hd
  have h1 : ¬ a < 0 := by omega
  simp only [slice, hf]
  simp only [JsNum.toIntegerOrInfinity, relativeIndex, h1, if_false]
  by_cases hN : a ≤ (l.length : Int)
  · rw [min_eq_left hN, List.take_of_length_le]
    simp only [List.length_drop]; omega
  · rw [min_eq_right (by omega)]
    rw [List.drop_of_length_le (by omega), List.drop_of_length_le (by omega), List.take_nil]

theorem slice_nan {α : Type} (l : List α) : slice l JsNum.nan JsNum.nan = [] := by
  simp [slice, JsNum.toIntegerOrInfinity, relativeIndex]

theorem slice_nil {α : Type} (c d : JsNum) : slice ([] : List α) c d = [] := by
  simp [slice]

theorem slice_page {l : List Assignment} (page L : Int) (hp : 1 ≤ page) (hL : 1 ≤ L)
    (hN : (l.length : Int) < 2 ^ 53)
    (hex : ¬ (page = 1 ∧ JsNum.ofInt L = JsNum.posInf)) :
    slice l (((JsNum.ofInt page).sub (JsNum.int 1)).mul (JsNum.ofInt L))
        ((((JsNum.ofInt page).sub (JsNum.int 1)).mul (JsNum.ofInt L)).add (JsNum.ofInt L)) =
      (l.drop ((page - 1) * L).toNat).take L.toNat := by
  have hS0 : 0 ≤ (page - 1) * L := mul_nonneg (by omega) (by omega)
  have hdropnil : (l.length : Int) ≤ (page - 1) * L →
      (l.drop ((page - 1) * L).toNat).take L.toNat = [] := by
    intro h
    rw [List.drop_of_length_le (by omega), List.take_nil]
  rcases ofInt_cases page (by omega) with ⟨hps, ep⟩ | ⟨hpb, ep⟩
  · have eb : (JsNum.ofInt page).sub (JsNum.int 1) = JsNum.int (page - 1) := by
      rw [ep]
      exact round_of_nonneg_le _ (by omega) (by omega)
    rw [eb]
    rcases ofInt_cases L (by omega) with ⟨hLs, el⟩ | ⟨hLb, el⟩
    · rw [el]
      show slice l (JsNum.round ((page - 1) * L))
        ((JsNum.round ((page - 1) * L)).add (JsNum.int L)) = _
      by_cases hS : (page - 1) * L ≤ 2 ^ 53
      · rw [round_of_nonneg_le _ hS0 hS]
        show slice l (JsNum.int ((page - 1) * L)) (JsNum.round ((page - 1) * L + L)) = _
        by_cases hSL : (page - 1) * L + L ≤ 2 ^ 53
        · rw [round_of_nonneg_le _ (by omega) hSL]
          exact slice_nonneg l _ _ hS0 (by omega)
        · have hd : JsNum.atLeast (l.length : Int) (JsNum.round ((page - 1) * L + L)) :=
            atLeast_mono _ _ _ (by omega) (round_big _ (by omega))
          rw [slice_atLeast_stop _ _ _ hS0 hd]
          symm
          apply List.take_of_length_le
          simp only [List.length_drop]
          omega
      · have hc : JsNum.atLeast (l.length : Int) (JsNum.round ((page - 1) * L)) :=
          atLeast_mono _ _ _ (by omega) (round_big _ (by omega))
        rw [slice_atLeast_start _ _ _ hc, hdropnil (by omega)]
    · by_cases hp1 : page = 1
      · subst hp1
        cases hl : JsNum.ofInt L with
        | posInf => exact absurd ⟨rfl, hl⟩ hex
        | nan => rw [hl] at el; exact False.elim el
        | negInf => rw [hl] at el; exact False.elim el
        | int z =>
          rw [hl] at el
          have hz : (2 : Int) ^ 53 ≤ z := el
          have e0 : (JsNum.int (1 - 1)).mul (JsNum.int z) = JsNum.int 0 := by
            show JsNum.round ((1 - 1) * z) = _
            rw [show ((1 : Int) - 1) * z = 0 by ring]
            exact round_of_nonneg_le 0 (by omega) (by norm_num)
          rw [e0]
          show slice l (JsNum.int 0) (JsNum.round (0 + z)) = _
          have hd : JsNum.atLeast (l.length : Int) (JsNum.round (0 + z)) :=
            atLeast_mono _ _ _ (by omega) (round_big _ (by omega))
          rw [slice_atLeast_stop _ _ _ (le_refl _) hd]
          rw [show ((1 : Int) - 1) * L = 0 by ring]
          symm
          apply List.take_of_length_le
          simp only [Int.toNat_zero, List.drop_zero]
          omega
      · have hb1 : JsNum.atLeast 1 (JsNum.int (page - 1)) := by
          show (1 : Int) ≤ page - 1
          omega
        have hc := mul_atLeast_right (2 ^ 53) _ _ (by norm_num) (le_refl _) hb1 el
        rw [slice_atLeast_start _ _ _ (atLeast_mono _ _ _ (by omega) hc)]
        have hp2 : 1 ≤ page - 1 := by omega
        have hSL : L ≤ (page - 1) * L := le_mul_of_one_le_left (by omega) hp2
        rw [hdropnil (by omega)]
  · have hb := sub_one_atLeast _ ep
    have hl1 : JsNum.atLeast 1 (JsNum.ofInt L) :=
      round_atLeast 1 L (by norm_num) (by norm_num) hL
    have hc := mul_atLeast (2 ^ 53 - 1) _ _ (by norm_num) (by norm_num) hb hl1
    rw [slice_atLeast_start _ _ _ (atLeast_mono _ _ _ (by omega) hc)]
    have hSL : page - 1 ≤ (page - 1) * L := le_mul_of_one_le_right (by omega) hL
    rw [hdropnil (by omega)]

theorem getAssignments_infinite_limit (s : Server) (L : Int)
    (h : JsNum.ofInt L = JsNum.posInf) :
    getAssignments s (some (JsNum.ofInt 1)) (some (JsNum.ofInt L)) =
      (s, { status := 200, body := ResBody.records [] }) := by
  have e1 : JsNum.ofInt 1 = JsNum.int 1 := round_of_nonneg_le 1 (by norm_num) (by norm_num)
  have e0 : (JsNum.int 1).sub (JsNum.int 1) = JsNum.int 0 := by
    show JsNum.round (1 - 1) = _
    exact round_of_nonneg_le 0 (le_refl _) (by norm_num)
  simp only [getAssignments, Option.getD_some, h, e1, e0]
  have : (JsNum.int 0).mul JsNum.posInf = JsNum.nan := by
    simp [JsNum.mul, JsNum.infTimes]
  rw [this]
  show (s, ({ status := 200, body := ResBody.records (slice s.assignments JsNum.nan JsNum.nan) }
    : Response)) = _
  rw [slice_nan]

theorem getAssignments_eq (s : Server) (page L : Int) (hp : 1 ≤ page) (hL : 1 ≤ L)
    (hN : (s.assignments.length : Int) < 2 ^ 53)
    (hex : ¬ (page = 1 ∧ (JsNum.overflowBound : Int) ≤ L ∧ s.assignments ≠ [])) :
    getAssignments s (some (JsNum.ofInt page)) (some (JsNum.ofInt L)) =
      (s, { status := 200,
            body := ResBody.records
              ((s.assignments.drop ((page - 1) * L).toNat).take L.toNat) }) := by
  by_cases h : page = 1 ∧ JsNum.ofInt L = JsNum.posInf
  · have hnil : s.assignments = [] := by
      by_contra hne
      exact hex ⟨h.1, (round_eq_posInf_iff L).mp h.2, hne⟩
    rw [h.1, getAssignments_infinite_limit s L h.2, hnil]
    simp
  · simp only [getAssignments, Option.getD_some]
    rw [slice_page page L hp hL hN h]

theorem idMatches_int (id : Int) (a : Assignment) :
    idMatches (JsNum.int id) a = true ↔ a.id = some id := by
  unfold idMatches
  cases h : a.id with
  | none => simp
  | some i => simp

theorem idMatches_nan (a : Assignment) : idMatches JsNum.nan a = false := by
  unfold idMatches
  cases a.id <;> rfl

theorem findIndexFrom_split {α : Type} (p : α → Bool) (l : List α) (i : Nat) :
    (findIndexFrom p l i = -1 ∧ ∀ x ∈ l, p x = false) ∨
    ∃ l1 a l2, l = l1 ++ a :: l2 ∧ (∀ x ∈ l1, p x = false) ∧ p a = true ∧
      findIndexFrom p l i = ((i + l1.length : Nat) : Int) := by
  induction l generalizing i with
  | nil => left; simp [findIndexFrom]
  | cons b bs ih =>
    by_cases hb : p b = true
    · right
      exact ⟨[], b, bs, rfl, by simp, hb, by simp [findIndexFrom, hb]⟩
    · have hb' : p b = false := by simpa using hb
      rcases ih (i + 1) with ⟨h1, h2⟩ | ⟨l1, a, l2, e, h1, h2, h3⟩
      · left
        refine ⟨by simp [findIndexFrom, hb', h1], ?_⟩
        intro x hx
        rcases List.mem_cons.mp hx with rfl | hx
        · exact hb'
        · exact h2 x hx
      · right
        refine ⟨b :: l1, a, l2, by simp [e], ?_, h2, ?_⟩
        · intro x hx
          rcases List.mem_cons.mp hx with rfl | hx
          · exact hb'
          · exact h1 x hx
        · simp only [findIndexFrom, hb', Bool.false_eq_true, if_false, h3, List.length_cons]
          congr 1
          omega

theorem splice1_split {α : Type} (l1 l2 : List α) (a : α) :
    splice1 (l1 ++ a :: l2) ((l1.length : Nat) : Int) = l1 ++ l2 := by
  unfold splice1
  rw [Int.toNat_natCast]
  induction l1 with
  | nil => rfl
  | cons b bs ih => simp [List.eraseIdx, ih]

theorem find?_split {α : Type} (p : α → Bool) (l : List α) :
    (l.find? p = none ∧ ∀ x ∈ l, p x = false) ∨
    ∃ l1 a l2, l = l1 ++ a :: l2 ∧ (∀ x ∈ l1, p x = false) ∧ p a = true ∧
      l.find? p = some a := by
  induction l with
  | nil => left; simp
  | cons b bs ih =>
    by_cases hb : p b = true
    · right
      exact ⟨[], b, bs, rfl, by simp, hb, by simp [List.find?, hb]⟩
    · have hb' : p b = false := by simpa using hb
      rcases ih with ⟨h1, h2⟩ | ⟨l1, a, l2, e, h1, h2, h3⟩
      · left
        refine ⟨by simp [List.find?, hb', h1], ?_⟩
        intro x hx
        rcases List.mem_cons.mp hx with rfl | hx
        · exact hb'
        · exact h2 x hx
      · right
        refine ⟨b :: l1, a, l2, by simp [e], ?_, h2, by simp [List.find?, hb', h3]⟩
        intro x hx
        rcases List.mem_cons.mp hx with rfl | hx
        · exact hb'
        · exact h1 x hx

theorem mutateFirst_split {α : Type} (p : α → Bool) (f : α → α) (l1 l2 : List α) (a : α)
    (h1 : ∀ x ∈ l1, p x = false) (h2 : p a = true) :
    mutateFirst p f (l1 ++ a :: l2) = l1 ++ f a :: l2 := by
  induction l1 with
  | nil => simp [mutateFirst, h2]
  | cons b bs ih =>
    have hb : p b = false := h1 b (by simp)
    have hbs : ∀ x ∈ bs, p x = false := fun x hx => h1 x (by simp [hx])
    simp [mutateFirst, hb, ih hbs]

theorem firstMissing_required (b : ReqBody) :
    firstMissing b requiredFields =
      if truthyStr b.name then (if truthyStr b.dueDate then none else some "dueDate")
      else some "name" := by
  have e : ("dueDate" : String) ≠ "name" := by decide
  simp only [requiredFields, firstMissing, ReqBody.field, if_true, e, if_false]
  cases truthyStr b.name <;> cases truthyStr b.dueDate <;> simp

theorem truthyStr_false_iff (v : Option String) :
    truthyStr v = false ↔ (v = none ∨ v = some "") := by
  cases v with
  | none => simp [truthyStr]
  | some x => simp [truthyStr]

/-! ## The handlers -/

theorem ceilDiv_spec (n L : Int) (hn : 0 ≤ n) (hL : 1 ≤ L) :
    n ≤ ceilDiv n L * L ∧ 0 ≤ ceilDiv n L := by
  unfold ceilDiv
  have h1 := Int.emod_add_ediv (-n) L
  have h2 := Int.emod_nonneg (-n) (show L ≠ 0 by omega)
  have h3 := Int.emod_lt_of_pos (-n) (show 0 < L by omega)
  constructor
  · nlinarith
  · by_contra hc
    push_neg at hc
    have : 1 ≤ (-n) / L := by omega
    nlinarith

theorem ceilDiv_eq_ceil (n L : Int) (hL : 1 ≤ L) :
    ceilDiv n L = Int.ceil ((n : ℚ) / (L : ℚ)) := by
  symm
  rw [Int.ceil_eq_iff]
  unfold ceilDiv
  have h1 := Int.emod_add_ediv (-n) L
  have h2 := Int.emod_nonneg (-n) (show L ≠ 0 by omega)
  have h3 := Int.emod_lt_of_pos (-n) (show 0 < L by omega)
  have hLq : (0 : ℚ) < (L : ℚ) := by exact_mod_cast (show (0 : Int) < L by omega)
  generalize (-n) / L = q at *
  generalize (-n) % L = r at *
  have hn : n = -(r + L * q) := by omega
  subst hn
  constructor
  · rw [lt_div_iff₀ hLq]
    have : ((-q : Int) - 1) * L < -(r + L * q) := by nlinarith
    exact_mod_cast this
  · rw [div_le_iff₀ hLq]
    have : -(r + L * q) ≤ (-q : Int) * L := by nlinarith
    exact_mod_cast this

/-- C1, amended. List pagination: on a store of `N < 2^53` records (a JavaScript array holds
fewer than `2^32`), for all integers page ≥ 1 and limit L ≥ 1, other than page = 1 with
`L ≥ 2^1024 - 2^970` on a non-empty store, the handler of `GET /api/assignments` answers 200 with exactly the
records at the store positions `i` with `(page-1)*L ≤ i < min (page*L) N`, in store order (the
answer has that many records and its `j`-th record is the store's record at position
`(page-1)*L + j`), and leaves the state unchanged.  For page = 1 and `L ≥ 2^1024 - 2^970` the
limit is `Infinity`, the start index `0 * Infinity` is `NaN`, and the answer is empty.  Page
`⌈N/L⌉ + 1` is the empty sequence for every L ≥ 1. -/
theorem getAssignments_pagination (s : Server) (L : Int) (hL : 1 ≤ L)
    (hN : (s.assignments.length : Int) < 2 ^ 53) :
    (∀ page : Int, 1 ≤ page →
      ¬ (page = 1 ∧ (JsNum.overflowBound : Int) ≤ L ∧ s.assignments ≠ []) →
      ∃ out : List Assignment,
        getAssignments s (some (JsNum.ofInt page)) (some (JsNum.ofInt L)) =
          (s, { status := 200, body := ResBody.records out }) ∧
        (out.length : Int) =
          max (min (page * L) (s.assignments.length : Int) - (page - 1) * L) 0 ∧
        ∀ j : Nat, j < out.length →
          out[j]? = s.assignments[((page - 1) * L).toNat + j]?) ∧
    ((JsNum.overflowBound : Int) ≤ L →
      getAssignments s (some (JsNum.ofInt 1)) (some (JsNum.ofInt L)) =
        (s, { status := 200, body := ResBody.records [] })) ∧
    getAssignments s
        (some (JsNum.ofInt (Int.ceil ((s.assignments.length : ℚ) / (L : ℚ)) + 1)))
        (some (JsNum.ofInt L)) =
      (s, { status := 200, body := ResBody.records [] }) := by
  have hinf : (JsNum.overflowBound : Int) ≤ L →
      getAssignments s (some (JsNum.ofInt 1)) (some (JsNum.ofInt L)) =
        (s, { status := 200, body := ResBody.records [] }) := fun h =>
    getAssignments_infinite_limit s L ((round_eq_posInf_iff L).mpr h)
  refine ⟨?_, hinf, ?_⟩
  · intro page hp hex
    have ha : 0 ≤ (page - 1) * L := mul_nonneg (by omega) (by omega)
    refine ⟨_, getAssignments_eq s page L hp hL hN hex, ?_, ?_⟩
    · have e : page * L = (page - 1) * L + L := by ring
      rw [e]
      generalize (page - 1) * L = a at ha
      simp only [List.length_take, List.length_drop]
      omega
    · intro j hj
      simp only [List.length_take, List.length_drop] at hj
      rw [List.getElem?_take_of_lt (by omega), List.getElem?_drop]
  · have hc : Int.ceil (((s.assignments.length : Int) : ℚ) / (L : ℚ)) =
        ceilDiv (s.assignments.length : Int) L := (ceilDiv_eq_ceil _ L hL).symm
    have hc2 : Int.ceil ((s.assignments.length : ℚ) / (L : ℚ)) =
        ceilDiv (s.assignments.length : Int) L := by exact_mod_cast hc
    rw [hc2]
    obtain ⟨h1, h2⟩ := ceilDiv_spec (s.assignments.length : Int) L (by omega) hL
    by_cases hex : ceilDiv (s.assignments.length : Int) L + 1 = 1 ∧
        (JsNum.overflowBound : Int) ≤ L ∧ s.assignments ≠ []
    · rw [hex.1]
      exact hinf hex.2.1
    · rw [getAssignments_eq s _ L (by omega) hL hN hex]
      have e : (ceilDiv (s.assignments.length : Int) L + 1 - 1) * L =
          ceilDiv (s.assignments.length : Int) L * L := by ring
      rw [e, List.drop_of_length_le (by omega), List.take_nil]

/-- C1, counterexample. Seven records, page 1, limit `10^400`: the positions
`0 ≤ i < min (1 * 10^400) 7` are all seven records, but `parseInt` gives `Infinity` for the
limit, the start index `(1 - 1) * Infinity` is `NaN`, and the answer is empty. -/
theorem getAssignments_pagination_counterexample :
    (1 : Int) ≤ 1 ∧ (1 : Int) ≤ 10 ^ 400 ∧
    getAssignments sevenRecords (some (JsNum.ofInt 1)) (some (JsNum.ofInt (10 ^ 400))) =
      (sevenRecords, { status := 200, body := ResBody.records [] }) ∧
    max (min (1 * 10 ^ 400) (sevenRecords.assignments.length : Int) - (1 - 1) * 10 ^ 400) 0
      = 7 := by
  refine ⟨le_refl _, by norm_num, ?_, ?_⟩
  · apply getAssignments_infinite_limit
    refine (round_eq_posInf_iff _).mpr ?_
    unfold JsNum.overflowBound
    norm_num
  · have : (sevenRecords.assignments.length : Int) = 7 := by decide
    rw [this]
    norm_num

/-- Page 3 and page 4 of seven records with limit 3. -/
theorem getAssignments_pagination_witness :
    (1 : Int) ≤ 3 ∧ (sevenRecords.assignments.length : Int) < 2 ^ 53 ∧
    (∃ out : List Assignment,
        getAssignments sevenRecords (some (JsNum.ofInt 3)) (some (JsNum.ofInt 3)) =
          (sevenRecords, { status := 200, body := ResBody.records out }) ∧
        (out.length : Int) =
          max (min (3 * 3) (sevenRecords.assignments.length : Int) - (3 - 1) * 3) 0 ∧
        ∀ j : Nat, j < out.length →
          out[j]? = sevenRecords.assignments[(((3 : Int) - 1) * 3).toNat + j]?) ∧
    getAssignments sevenRecords
        (some (JsNum.ofInt
          (Int.ceil ((sevenRecords.assignments.length : ℚ) / ((3 : Int) : ℚ)) + 1)))
        (some (JsNum.ofInt 3)) =
      (sevenRecords, { status := 200, body := ResBody.records [] }) :=
  ⟨by decide, by decide,
    (getAssignments_pagination sevenRecords 3 (by decide) (by decide)).1 3 (by decide)
      (fun h => absurd h.1 (by decide)),
    (getAssignments_pagination sevenRecords 3 (by decide) (by decide)).2.2⟩

theorem round_two_pow_53_add_one :
    JsNum.round 9007199254740993 = JsNum.int 9007199254740992 := by
  have hlog : Nat.log2 9007199254740993 = 53 := by
    apply Nat.le_antisymm
    · have := (Nat.log2_lt (show (9007199254740993 : Nat) ≠ 0 by norm_num)
        (k := 54)).mpr (by norm_num)
      omega
    · exact (Nat.le_log2 (by norm_num)).mpr (by norm_num)
  have hnat : (9007199254740993 : Int).natAbs = 9007199254740993 := rfl
  have h1 : ¬ (9007199254740993 : Nat) ≤ 2 ^ 53 := by norm_num
  have h2 : ¬ JsNum.overflowBound ≤ 9007199254740993 := by
    unfold JsNum.overflowBound
    norm_num
  unfold JsNum.round
  simp only [hnat, h1, if_false]
  rw [if_neg h2, hlog]
  norm_num

theorem add_one_of_safe (i : Int) (h1 : -2 ^ 53 ≤ i) (h2 : i < 2 ^ 53) :
    ((JsNum.int i).add (JsNum.int 1)).toId = some (i + 1) := by
  show (JsNum.round (i + 1)).toId = _
  rw [round_small (i + 1) (by omega)]
  rfl

theorem orZero_some (i : Int) : orZero (some i) = i := by
  by_cases h : i = 0 <;> simp [orZero, h]

/-- C2, amended. Create on a non-empty store: with non-empty `name` and `dueDate` the handler of
`POST /api/assignments` answers 201 with the record whose id is the sum of doubles
`(last id || 0) + 1`: the double nearest to last id + 1, which is last id + 1 itself whenever
`-2^53 ≤ last id < 2^53` (a last id of 5 gives 6) and `0 + 1` when the last record has no id;
the record's `name` and `dueDate` are the input's and its `submitted` is the input's, or
`false` when absent; the new store is the old store with that record appended. -/
theorem postAssignment_appends (s : Server) (b : ReqBody) (n d : String)
    (hs : s.assignments ≠ [])
    (hn : b.name = some n) (hn' : n ≠ "") (hd : b.dueDate = some d) (hd' : d ≠ "") :
    ∃ (last : Assignment) (newId : Option Int),
      s.assignments.getLast? = some last ∧
      (∀ i : Int, last.id = some i → newId = (JsNum.round (i + 1)).toId) ∧
      (∀ i : Int, last.id = some i → -2 ^ 53 ≤ i → i < 2 ^ 53 → newId = some (i + 1)) ∧
      (last.id = none → newId = some (0 + 1)) ∧
      (last.id = some 5 → newId = some 6) ∧
      (postAssignment s b).2 =
        { status := 201
          body := ResBody.record
            { id := newId, name := some n, dueDate := some d,
              submitted := some (b.submitted.getD false) } } ∧
      (postAssignment s b).1.assignments =
        s.assignments ++
          [{ id := newId, name := some n, dueDate := some d,
             submitted := some (b.submitted.getD false) }] := by
  have hm : firstMissing b requiredFields = none := by
    rw [firstMissing_required]
    simp [truthyStr, hn, hd, hn', hd']
  obtain ⟨last, hlast⟩ : ∃ last, s.assignments.getLast? = some last := by
    cases h : s.assignments.getLast? with
    | none => exact absurd (List.getLast?_eq_none_iff.mp h) hs
    | some a => exact ⟨a, rfl⟩
  have hidx : s.assignments[s.assignments.length - 1]? = some last := by
    rw [← List.getLast?_eq_getElem?]; exact hlast
  have hsub : orFalse b.submitted = b.submitted.getD false := by
    cases b.submitted with
    | none => rfl
    | some v => cases v <;> rfl
  refine ⟨last, ((JsNum.int (orZero last.id)).add (JsNum.int 1)).toId, hlast,
    ?_, ?_, ?_, ?_, ?_, ?_⟩
  · intro i hi
    rw [hi, orZero_some]
    rfl
  · intro i hi h1 h2
    rw [hi, orZero_some]
    exact add_one_of_safe i h1 h2
  · intro hi
    rw [hi]
    exact add_one_of_safe 0 (by norm_num) (by norm_num)
  · intro hi
    rw [hi, orZero_some]
    exact add_one_of_safe 5 (by norm_num) (by norm_num)
  · simp only [postAssignment, hm, hidx, hsub, hn, hd]
  · simp only [postAssignment, hm, hidx, hsub, hn, hd]

/-- C2, counterexample. The store whose last record has id `2^53`: the created record has id
`2^53` again, not `2^53 + 1`, which is not a double. -/
theorem postAssignment_appends_counterexample :
    endsInTwoPow53.assignments ≠ [] ∧
    endsInTwoPow53.assignments.getLast? =
      some { id := some (2 ^ 53), name := some "A", dueDate := some "D",
             submitted := some true } ∧
    (postAssignment endsInTwoPow53 hw1).2 =
      { status := 201
        body := ResBody.record
          { id := some (2 ^ 53), name := some "HW1", dueDate := some "2024-05-01",
            submitted := some false } } := by
  refine ⟨by decide, by decide, ?_⟩
  have hm : firstMissing hw1 requiredFields = none := by decide
  have hidx : endsInTwoPow53.assignments[endsInTwoPow53.assignments.length - 1]? =
      some { id := some 9007199254740992, name := some "A", dueDate := some "D",
             submitted := some true } := by decide
  have hadd : (JsNum.int (orZero (some 9007199254740992))).add (JsNum.int 1) =
      JsNum.int 9007199254740992 := by
    rw [orZero_some]
    exact round_two_pow_53_add_one
  simp only [postAssignment, hm, hidx, hadd]
  rfl

/-- A store ending in id 5: the created record has id 6. -/
theorem postAssignment_appends_witness :
    endsInFive.assignments ≠ [] ∧ hw1.name = some "HW1" ∧ "HW1" ≠ "" ∧
    hw1.dueDate = some "2024-05-01" ∧ "2024-05-01" ≠ "" ∧
    (postAssignment endsInFive hw1).2 =
      { status := 201
        body := ResBody.record
          { id := some 6, name := some "HW1", dueDate := some "2024-05-01",
            submitted := some false } } ∧
    (postAssignment endsInFive hw1).1.assignments =
      endsInFive.assignments ++
        [{ id := some 6, name := some "HW1", dueDate := some "2024-05-01",
           submitted := some false }] := by
  obtain ⟨last, newId, hl, _, _, _, h5, hr, hst⟩ :=
    postAssignment_appends endsInFive hw1 "HW1" "2024-05-01"
      (by decide) rfl (by decide) rfl (by decide)
  have hlast : endsInFive.assignments.getLast? =
      some { id := some 5, name := some "C", dueDate := some "E", submitted := some false } := by
    decide
  rw [hlast] at hl
  have h6 : newId = some 6 := h5 (by rw [← Option.some.inj hl])
  subst h6
  exact ⟨by decide, rfl, by decide, rfl, by decide, hr, hst⟩

/-- C3. Create validation: a missing or empty `name` is answered with 400 and
"Missing required field: name"; a non-empty `name` with a missing or empty `dueDate` is
answered with 400 and "Missing required field: dueDate"; a 400 is given in these cases only,
and the state is then unchanged. -/
theorem postAssignment_validation (s : Server) (b : ReqBody) :
    ((b.name = none ∨ b.name = some "") →
      postAssignment s b =
        (s, { status := 400, body := ResBody.error "Missing required field: name" })) ∧
    ((∃ n : String, b.name = some n ∧ n ≠ "") → (b.dueDate = none ∨ b.dueDate = some "") →
      postAssignment s b =
        (s, { status := 400, body := ResBody.error "Missing required field: dueDate" })) ∧
    ((postAssignment s b).2.status = 400 →
      ((b.name = none ∨ b.name = some "") ∨
        ((∃ n : String, b.name = some n ∧ n ≠ "") ∧
          (b.dueDate = none ∨ b.dueDate = some ""))) ∧
      (postAssignment s b).1 = s) := by
  refine ⟨?_, ?_, ?_⟩
  · intro h
    have ht : truthyStr b.name = false := (truthyStr_false_iff _).mpr h
    simp only [postAssignment, firstMissing_required, ht]
    rfl
  · rintro ⟨n, hn, hn'⟩ h
    have ht : truthyStr b.name = true := by simp [truthyStr, hn, hn']
    have hd : truthyStr b.dueDate = false := (truthyStr_false_iff _).mpr h
    simp only [postAssignment, firstMissing_required, ht, hd]
    rfl
  · intro h
    cases hn : truthyStr b.name with
    | false =>
      refine ⟨Or.inl ((truthyStr_false_iff _).mp hn), ?_⟩
      simp only [postAssignment, firstMissing_required, hn]
      rfl
    | true =>
      have hname : ∃ n : String, b.name = some n ∧ n ≠ "" := by
        cases hb : b.name with
        | none => simp [truthyStr, hb] at hn
        | some x =>
          refine ⟨x, rfl, ?_⟩
          simpa [truthyStr, hb] using hn
      cases hd : truthyStr b.dueDate with
      | false =>
        refine ⟨Or.inr ⟨hname, (truthyStr_false_iff _).mp hd⟩, ?_⟩
        simp only [postAssignment, firstMissing_required, hn, hd]
        rfl
      | true =>
        exfalso
        simp only [postAssignment, firstMissing_required, hn, hd] at h
        cases hl : s.assignments[s.assignments.length - 1]? with
        | none => simp [hl] at h
        | some last => simp [hl] at h

/-- C4. Create on an empty store: the handler reads `.id` of a last element that does not
exist, so no Create on an empty store answers 201 and the store stays empty; the request
`{name: "HW1", dueDate: "2024-05-01"}` is answered with 500. -/
theorem postAssignment_empty_store_fails :
    (∀ (file : List Assignment) (b : ReqBody),
      (postAssignment { assignments := [], dataFile := file } b).2.status ≠ 201 ∧
      (postAssignment { assignments := [], dataFile := file } b).1 =
        { assignments := [], dataFile := file }) ∧
    postAssignment (boot []) hw1 =
      (boot [], { status := 500, body := ResBody.text "Something went wrong!" }) := by
  refine ⟨fun file b => ?_, by decide⟩
  unfold postAssignment
  cases firstMissing b requiredFields with
  | some f => simp
  | none => simp

theorem deleteAssignment_cases (s : Server) (id : Int) :
    ((∀ a ∈ s.assignments, a.id ≠ some id) ∧
      deleteAssignment s (JsNum.int id) =
        (s, { status := 404, body := ResBody.text "Assignment not found" })) ∨
    ∃ l1 a l2, s.assignments = l1 ++ a :: l2 ∧ (∀ x ∈ l1, x.id ≠ some id) ∧
      a.id = some id ∧
      deleteAssignment s (JsNum.int id) =
        ({ s with assignments := l1 ++ l2 }, { status := 204, body := ResBody.empty }) := by
  rcases findIndexFrom_split (idMatches (JsNum.int id)) s.assignments 0 with
    ⟨h1, h2⟩ | ⟨l1, a, l2, e, h1, h2, h3⟩
  · left
    refine ⟨fun a ha hid => ?_, ?_⟩
    · have := h2 a ha
      rw [(idMatches_int id a).mpr hid] at this
      exact Bool.noConfusion this
    · simp [deleteAssignment, findIndex, h1]
  · right
    refine ⟨l1, a, l2, e, fun x hx hid => ?_, (idMatches_int id a).mp h2, ?_⟩
    · have := h1 x hx
      rw [(idMatches_int id x).mpr hid] at this
      exact Bool.noConfusion this
    · have hne : ((0 + l1.length : Nat) : Int) ≠ -1 := by omega
      simp only [deleteAssignment, findIndex, h3, hne, if_false]
      rw [e, Nat.zero_add, splice1_split]

/-- C5. Delete: the handler of `DELETE /api/assignments/:id` answers 404, state unchanged, if
and only if no record has that id; otherwise it answers 204 and the store loses exactly the
first record with that id, the other records keeping their order, so that the length decreases
by one. -/
theorem deleteAssignment_spec (s : Server) (id : Int) :
    ((deleteAssignment s (JsNum.int id)).2.status = 404 ↔
      ∀ a ∈ s.assignments, a.id ≠ some id) ∧
    ((∀ a ∈ s.assignments, a.id ≠ some id) →
      deleteAssignment s (JsNum.int id) =
        (s, { status := 404, body := ResBody.text "Assignment not found" })) ∧
    ((∃ a ∈ s.assignments, a.id = some id) →
      ∃ l1 a l2, s.assignments = l1 ++ a :: l2 ∧ (∀ x ∈ l1, x.id ≠ some id) ∧
        a.id = some id ∧
        deleteAssignment s (JsNum.int id) =
          ({ assignments := l1 ++ l2, dataFile := s.dataFile },
            { status := 204, body := ResBody.empty }) ∧
        (l1 ++ l2).length + 1 = s.assignments.length) := by
  rcases deleteAssignment_cases s id with ⟨h1, h2⟩ | ⟨l1, a, l2, e, h1, h2, h3⟩
  · refine ⟨?_, fun _ => h2, ?_⟩
    · rw [h2]; simp only [true_iff]; exact h1
    · rintro ⟨a, ha, hid⟩
      exact absurd hid (h1 a ha)
  · have hmem : a ∈ s.assignments := by rw [e]; simp
    refine ⟨?_, fun h => absurd h2 (h a hmem), fun _ => ⟨l1, a, l2, e, h1, h2, h3, ?_⟩⟩
    · rw [h3]
      constructor
      · intro h; simp at h
      · intro h; exact absurd h2 (h a hmem)
    · rw [e]; simp; omega

theorem putAssignment_cases (s : Server) (id : Int) (b : ReqBody) :
    ((∀ a ∈ s.assignments, a.id ≠ some id) ∧
      putAssignment s (JsNum.int id) b =
        (s, { status := 404, body := ResBody.text "Assignment not found" })) ∨
    ∃ l1 a l2, s.assignments = l1 ++ a :: l2 ∧ (∀ x ∈ l1, x.id ≠ some id) ∧
      a.id = some id ∧
      putAssignment s (JsNum.int id) b =
        ({ s with assignments := l1 ++ overwrite b a :: l2 },
          { status := 200, body := ResBody.record (overwrite b a) }) := by
  rcases find?_split (idMatches (JsNum.int id)) s.assignments with
    ⟨h1, h2⟩ | ⟨l1, a, l2, e, h1, h2, h3⟩
  · left
    refine ⟨fun a ha hid => ?_, ?_⟩
    · have := h2 a ha
      rw [(idMatches_int id a).mpr hid] at this
      exact Bool.noConfusion this
    · simp [putAssignment, h1]
  · right
    refine ⟨l1, a, l2, e, fun x hx hid => ?_, (idMatches_int id a).mp h2, ?_⟩
    · have := h1 x hx
      rw [(idMatches_int id x).mpr hid] at this
      exact Bool.noConfusion this
    · simp only [putAssignment, h3]
      rw [e, mutateFirst_split _ _ _ _ _ h1 h2]

/-- C6. Update is a full overwrite: the handler of `PUT /api/assignments/:id` answers 404,
state unchanged, if and only if no record has that id; otherwise the first record with that id
gets the input's `name`, `dueDate` and `submitted` (absent fields become `undefined`), keeps
its id, every other record stays in place, and the updated record is returned with 200. -/
theorem putAssignment_spec (s : Server) (id : Int) (b : ReqBody) :
    ((putAssignment s (JsNum.int id) b).2.status = 404 ↔
      ∀ a ∈ s.assignments, a.id ≠ some id) ∧
    ((∀ a ∈ s.assignments, a.id ≠ some id) →
      putAssignment s (JsNum.int id) b =
        (s, { status := 404, body := ResBody.text "Assignment not found" })) ∧
    ((∃ a ∈ s.assignments, a.id = some id) →
      ∃ l1 a l2, s.assignments = l1 ++ a :: l2 ∧ (∀ x ∈ l1, x.id ≠ some id) ∧
        a.id = some id ∧
        putAssignment s (JsNum.int id) b =
          ({ assignments :=
               l1 ++ { id := a.id, name := b.name, dueDate := b.dueDate,
                       submitted := b.submitted } :: l2,
             dataFile := s.dataFile },
            { status := 200,
              body := ResBody.record
                { id := a.id, name := b.name, dueDate := b.dueDate,
                  submitted := b.submitted } })) := by
  rcases putAssignment_cases s id b with ⟨h1, h2⟩ | ⟨l1, a, l2, e, h1, h2, h3⟩
  · refine ⟨?_, fun _ => h2, ?_⟩
    · rw [h2]; simp only [true_iff]; exact h1
    · rintro ⟨a, ha, hid⟩
      exact absurd hid (h1 a ha)
  · have hmem : a ∈ s.assignments := by rw [e]; simp
    refine ⟨?_, fun h => absurd h2 (h a hmem), fun _ => ⟨l1, a, l2, e, h1, h2, h3⟩⟩
    rw [h3]
    constructor
    · intro h; simp at h
    · intro h; exact absurd h2 (h a hmem)

theorem count_ids_eq_zero (l : List Assignment) (id : Int) :
    (l.map (fun a => a.id)).count (some id) = 0 ↔ ∀ x ∈ l, x.id ≠ some id := by
  rw [List.count_eq_zero]
  constructor
  · intro h x hx hid
    exact h (hid ▸ List.mem_map_of_mem _ hx)
  · intro h hmem
    obtain ⟨x, hx, hid⟩ := List.mem_map.mp hmem
    exact h x hx hid

/-- C7, counterexample. From the store with ids `[2, 1]` a Create yields ids `[2, 1, 2]`; on that
store `DELETE` of id 2 succeeds twice in a row. -/
theorem deleteAssignment_twice_counterexample :
    (ids unsortedStore).Nodup ∧
    (postAssignment unsortedStore hw1).2.status = 201 ∧
    (deleteAssignment (postAssignment unsortedStore hw1).1 (JsNum.int 2)).2.status = 204 ∧
    (deleteAssignment
      (deleteAssignment (postAssignment unsortedStore hw1).1 (JsNum.int 2)).1
      (JsNum.int 2)).2.status = 204 := by
  decide

/-- C7, amended. When a Delete of an id succeeds and at most one record of the store had that
id, a second Delete of the same id applied at once answers 404 and changes nothing; and a
second Delete answers 404 only if at most one record had that id. -/
theorem deleteAssignment_twice (s : Server) (id : Int)
    (h : (deleteAssignment s (JsNum.int id)).2.status = 204) :
    ((ids s).count (some id) ≤ 1 →
      deleteAssignment (deleteAssignment s (JsNum.int id)).1 (JsNum.int id) =
        ((deleteAssignment s (JsNum.int id)).1,
          { status := 404, body := ResBody.text "Assignment not found" })) ∧
    ((deleteAssignment (deleteAssignment s (JsNum.int id)).1 (JsNum.int id)).2.status = 404 →
      (ids s).count (some id) ≤ 1) := by
  rcases deleteAssignment_cases s id with ⟨_, h2⟩ | ⟨l1, a, l2, e, h1, h2, h3⟩
  · rw [h2] at h; simp at h
  · rw [h3]
    have hc1 : (l1.map (fun a => a.id)).count (some id) = 0 :=
      (count_ids_eq_zero l1 id).mpr h1
    have hcount : (ids s).count (some id) = (l2.map (fun a => a.id)).count (some id) + 1 := by
      simp only [ids, e, List.map_append, List.map_cons, List.count_append, hc1, h2,
        List.count_cons_self]
      omega
    rcases deleteAssignment_cases { s with assignments := l1 ++ l2 } id with
      ⟨k1, k2⟩ | ⟨m1, c, m2, e', _, k2, k3⟩
    · refine ⟨fun _ => k2, fun _ => ?_⟩
      have hl2 : ∀ x ∈ l2, x.id ≠ some id := fun x hx => k1 x (by simp [hx])
      rw [hcount, (count_ids_eq_zero l2 id).mpr hl2]
    · have hc : c ∈ l1 ++ l2 := by
        have : c ∈ m1 ++ c :: m2 := by simp
        rw [← e'] at this
        exact this
      have hc2 : c ∈ l2 := by
        rcases List.mem_append.mp hc with hc1' | hc2
        · exact absurd k2 (h1 c hc1')
        · exact hc2
      have hpos : 0 < (l2.map (fun a => a.id)).count (some id) := by
        rw [List.count_pos_iff, ← k2]
        exact List.mem_map_of_mem _ hc2
      constructor
      · intro hle; omega
      · intro h404
        rw [k3] at h404
        simp at h404

/-- The store with ids `[2, 1, 2]`: deleting id 1 twice gives 204, then 404. -/
theorem deleteAssignment_twice_witness :
    (deleteAssignment (postAssignment unsortedStore hw1).1 (JsNum.int 1)).2.status = 204 ∧
    (ids (postAssignment unsortedStore hw1).1).count (some 1) ≤ 1 ∧
    deleteAssignment (deleteAssignment (postAssignment unsortedStore hw1).1 (JsNum.int 1)).1
        (JsNum.int 1) =
      ((deleteAssignment (postAssignment unsortedStore hw1).1 (JsNum.int 1)).1,
        { status := 404, body := ResBody.text "Assignment not found" }) :=
  ⟨by decide, by decide,
    (deleteAssignment_twice (postAssignment unsortedStore hw1).1 1 (by decide)).1 (by decide)⟩

theorem map_id_mutateFirst (p : Assignment → Bool) (b : ReqBody) (l : List Assignment) :
    (mutateFirst p (overwrite b) l).map (fun a => a.id) = l.map (fun a => a.id) := by
  induction l with
  | nil => rfl
  | cons a as ih =>
    by_cases h : p a = true
    · simp [mutateFirst, h, overwrite]
    · simp [mutateFirst, h, ih]

theorem ids_putAssignment (s : Server) (id : JsNum) (b : ReqBody) :
    ids (putAssignment s id b).1 = ids s := by
  unfold putAssignment
  cases h : s.assignments.find? (idMatches id) with
  | none => rfl
  | some a => simp [ids, map_id_mutateFirst]

theorem ids_deleteAssignment (s : Server) (id : JsNum) :
    (ids (deleteAssignment s id).1).Sublist (ids s) := by
  unfold deleteAssignment
  by_cases h : findIndex (idMatches id) s.assignments = -1
  · simp [h]
  · simp only [h, if_false, ids, splice1]
    exact (List.eraseIdx_sublist _ _).map _

theorem dataFile_putAssignment (s : Server) (id : JsNum) (b : ReqBody) :
    (putAssignment s id b).1.dataFile = s.dataFile := by
  unfold putAssignment
  cases h : s.assignments.find? (idMatches id) <;> rfl

theorem dataFile_deleteAssignment (s : Server) (id : JsNum) :
    (deleteAssignment s id).1.dataFile = s.dataFile := by
  unfold deleteAssignment
  by_cases h : findIndex (idMatches id) s.assignments = -1 <;> simp [h]

theorem postAssignment_cases (s : Server) (b : ReqBody) :
    ((postAssignment s b).1 = s ∧ (postAssignment s b).2.status ≠ 201) ∨
    ∃ r : Assignment,
      (postAssignment s b).2 = { status := 201, body := ResBody.record r } ∧
      (postAssignment s b).1.assignments = s.assignments ++ [r] ∧
      (postAssignment s b).1.dataFile = (postAssignment s b).1.assignments := by
  unfold postAssignment
  cases hm : firstMissing b requiredFields with
  | some f => left; simp
  | none =>
    cases hl : s.assignments[s.assignments.length - 1]? with
    | none => left; simp
    | some last => right; exact ⟨_, rfl, rfl, rfl⟩

/-- C8, counterexample. The store with ids `[2, 1]` has pairwise distinct ids; after a Create
its ids are `[2, 1, 2]`. -/
theorem step_unique_ids_counterexample :
    (ids unsortedStore).Nodup ∧
    ids (step unsortedStore (Op.create hw1)) = [some 2, some 1, some 2] ∧
    ¬ (ids (step unsortedStore (Op.create hw1))).Nodup := by
  decide

/-- C8, amended. On a store with pairwise distinct ids, every Update and every Delete leaves
the ids pairwise distinct, and a Create does so exactly when the id of the record it creates,
the sum of doubles `(last id || 0) + 1`, is not yet the id of a record. -/
theorem step_preserves_unique_ids (s : Server) (op : Op) (hu : (ids s).Nodup) :
    (ids (step s op)).Nodup ↔
      ∀ (b : ReqBody) (r : Assignment), op = Op.create b →
        (postAssignment s b).2 = { status := 201, body := ResBody.record r } →
        r.id ∉ ids s := by
  cases op with
  | update id b =>
    simp only [step]
    rw [ids_putAssignment]
    exact ⟨fun _ b r h => Op.noConfusion h, fun _ => hu⟩
  | delete id =>
    simp only [step]
    exact ⟨fun _ b r h => Op.noConfusion h, fun _ => hu.sublist (ids_deleteAssignment s id)⟩
  | create b =>
    simp only [step]
    rcases postAssignment_cases s b with ⟨h1, h2⟩ | ⟨r, hr, hst, _⟩
    · rw [h1]
      refine ⟨fun _ b' r' hb' hr' => ?_, fun _ => hu⟩
      have hbb : b' = b := (Op.create.inj hb').symm
      subst hbb
      rw [hr'] at h2
      exact absurd rfl h2
    · have hids : ids (postAssignment s b).1 = ids s ++ [r.id] := by
        simp only [ids, hst, List.map_append, List.map_cons, List.map_nil]
      rw [hids]
      constructor
      · intro hnd b' r' hb' hr'
        have hbb : b' = b := (Op.create.inj hb').symm
        subst hbb
        rw [hr] at hr'
        have hrr : r = r' := by
          injection hr' with _ hbody
          injection hbody
        subst hrr
        intro hmem
        exact (List.nodup_append.mp hnd).2.2 hmem (List.mem_singleton_self _)
      · intro hall
        rw [List.nodup_append]
        refine ⟨hu, List.nodup_singleton _, ?_⟩
        intro x hx hx'
        rw [List.mem_singleton] at hx'
        subst hx'
        exact hall b r rfl hr hx

/-- A Create on the store with ids `[5, 1]` assigns id 2 and keeps the ids distinct. -/
theorem step_preserves_unique_ids_witness :
    (ids fiveOne).Nodup ∧
    (ids (step fiveOne
      (Op.create hw1))).Nodup := by
  refine ⟨by decide, ?_⟩
  refine (step_preserves_unique_ids _ (Op.create hw1) (by decide)).mpr ?_
  intro b r hb hr
  have hbb : b = hw1 := (Op.create.inj hb).symm
  subst hbb
  have hr2 : (postAssignment fiveOne
      hw1).2 =
      { status := 201,
        body := ResBody.record
          { id := some 2, name := some "HW1", dueDate := some "2024-05-01",
            submitted := some false } } := by decide
  rw [hr2] at hr
  have hrr : r = { id := some 2, name := some "HW1", dueDate := some "2024-05-01",
                   submitted := some false } := by
    injection hr with _ hbody
    injection hbody with hrec
    exact hrec.symm
  subst hrr
  decide

theorem run_append (s : Server) (ops tail : List Op) :
    run s (ops ++ tail) = run (run s ops) tail := by
  simp [run, List.foldl_append]

theorem dataFile_step_of_not_writes (s : Server) (o : Op) (h : o.writes s = false) :
    (step s o).dataFile = s.dataFile := by
  cases o with
  | update id b => exact dataFile_putAssignment s id b
  | delete id => exact dataFile_deleteAssignment s id
  | create b =>
    rcases postAssignment_cases s b with ⟨h1, _⟩ | ⟨r, hr, _, _⟩
    · show (postAssignment s b).1.dataFile = _
      rw [h1]
    · simp [Op.writes, hr] at h

theorem dataFile_step_of_writes (s : Server) (o : Op) (h : o.writes s = true) :
    (step s o).dataFile = (step s o).assignments := by
  cases o with
  | update id b => simp [Op.writes] at h
  | delete id => simp [Op.writes] at h
  | create b =>
    rcases postAssignment_cases s b with ⟨_, h2⟩ | ⟨r, _, _, h4⟩
    · simp [Op.writes, h2] at h
    · exact h4

theorem dataFile_run_of_noWrite (s : Server) (tail : List Op) (h : noWrite s tail = true) :
    (run s tail).dataFile = s.dataFile := by
  induction tail generalizing s with
  | nil => rfl
  | cons o os ih =>
    simp only [noWrite, Bool.and_eq_true, Bool.not_eq_true'] at h
    show (run (step s o) os).dataFile = s.dataFile
    rw [ih (step s o) h.2, dataFile_step_of_not_writes s o h.1]

theorem noWrite_append (s : Server) (tail : List Op) (o : Op) :
    noWrite s (tail ++ [o]) = (noWrite s tail && !(o.writes (run s tail))) := by
  induction tail generalizing s with
  | nil => simp [noWrite, run]
  | cons p ps ih =>
    show (!(p.writes s) && noWrite (step s p) (ps ++ [o])) =
      ((!(p.writes s) && noWrite (step s p) ps) && !(o.writes (run (step s p) ps)))
    rw [ih (step s p), Bool.and_assoc]

/-- C9, counterexample. Memory and file agree on two records; record 1 is updated, record 2 is
deleted, then a record is created.  After a restart record 1 has its updated fields and
record 2 is gone: the restarted store differs from the one the Create alone produces. -/
theorem restart_shows_update_and_delete_counterexample :
    twoRecords.assignments = twoRecords.dataFile ∧
    (restart (run twoRecords updateDeleteCreate)).assignments =
      [ { id := some 1, name := some "B", dueDate := none, submitted := none },
        { id := some 2, name := some "HW1", dueDate := some "2024-05-01",
          submitted := some false } ] ∧
    (restart (run twoRecords updateDeleteCreate)).assignments ≠
      (run twoRecords (updateDeleteCreate.filter Op.isCreate)).assignments := by
  decide

/-- C9, amended. Starting from a state whose memory equals its file, after a restart the store
is the in-memory sequence as it stood right after the last request that wrote the file, a
Create answered with 201 (the initial store when no request wrote): what the Updates, Deletes
and failed Creates after that request did is lost, what the requests before it did is kept.
Every sequence of requests splits in this way, into the requests up to the last write and
the requests after it. -/
theorem restart_after_last_create (s : Server) (hs : s.assignments = s.dataFile) :
    (∀ ops tail : List Op,
      (ops = [] ∨ ∃ pre o, ops = pre ++ [o] ∧ o.writes (run s pre) = true) →
      noWrite (run s ops) tail = true →
      (restart (run s (ops ++ tail))).assignments = (run s ops).assignments) ∧
    (∀ all : List Op, ∃ ops tail : List Op,
      all = ops ++ tail ∧
      (ops = [] ∨ ∃ pre o, ops = pre ++ [o] ∧ o.writes (run s pre) = true) ∧
      noWrite (run s ops) tail = true) := by
  constructor
  · intro ops tail hops htail
    have hfile : (run s ops).dataFile = (run s ops).assignments := by
      rcases hops with rfl | ⟨pre, o, rfl, ho⟩
      · exact hs.symm
      · rw [run_append]
        exact dataFile_step_of_writes (run s pre) o ho
    show (run s (ops ++ tail)).dataFile = _
    rw [run_append, dataFile_run_of_noWrite _ _ htail, hfile]
  · intro all
    induction all using List.reverseRecOn with
    | nil => exact ⟨[], [], rfl, Or.inl rfl, rfl⟩
    | append_singleton init o ih =>
      obtain ⟨ops, tail, e, hops, htail⟩ := ih
      cases hw : o.writes (run s init) with
      | true => exact ⟨init ++ [o], [], by simp, Or.inr ⟨init, o, rfl, hw⟩, rfl⟩
      | false =>
        refine ⟨ops, tail ++ [o], by rw [e, List.append_assoc], hops, ?_⟩
        rw [noWrite_append, htail, ← run_append, ← e, hw]
        rfl

/-- An Update, a Create, then a failed Create and a Delete: the restart shows the Update and
the Create, not the Delete. -/
theorem restart_after_last_create_witness :
    twoRecords.assignments = twoRecords.dataFile ∧
    (Op.create hw1).writes
      (run twoRecords
        [Op.update (JsNum.int 1) { name := some "B", dueDate := none, submitted := none }])
      = true ∧
    noWrite
      (run twoRecords
        ([Op.update (JsNum.int 1) { name := some "B", dueDate := none, submitted := none }] ++
          [Op.create hw1]))
      [ Op.create { name := none, dueDate := none, submitted := none },
        Op.delete (JsNum.int 2) ] = true ∧
    (restart (run twoRecords
      (([Op.update (JsNum.int 1) { name := some "B", dueDate := none, submitted := none }] ++
          [Op.create hw1]) ++
        [ Op.create { name := none, dueDate := none, submitted := none },
          Op.delete (JsNum.int 2) ]))).assignments =
      (run twoRecords
        ([Op.update (JsNum.int 1) { name := some "B", dueDate := none, submitted := none }] ++
          [Op.create hw1])).assignments :=
  ⟨rfl, by decide, by decide,
    (restart_after_last_create twoRecords rfl).1
      ([Op.update (JsNum.int 1) { name := some "B", dueDate := none, submitted := none }] ++
        [Op.create hw1])
      [ Op.create { name := none, dueDate := none, submitted := none },
        Op.delete (JsNum.int 2) ]
      (Or.inr ⟨[Op.update (JsNum.int 1) { name := some "B", dueDate := none, submitted := none }],
        Op.create hw1, rfl, by decide⟩)
      (by decide)⟩

/-- C10. With a count of 0 the client has `totalPages = 0` and `currentPage = 1`: "next" is
disabled but "last" is not, although `currentPage ≥ totalPages`.  After "last" is clicked
`currentPage = 0`: "prev" is disabled but "first" is not, although `currentPage ≤ 1`. -/
theorem updatePaginationButtons_empty_store :
    emptyStoreClient.totalPages = ceilDiv 0 5 ∧
    emptyStoreClient.currentPage ≥ emptyStoreClient.totalPages ∧
    (updatePaginationButtons emptyStoreClient).nextPage = true ∧
    (updatePaginationButtons emptyStoreClient).lastPage = false ∧
    (sendGetAssignmentsRequest emptyStoreClient emptyStoreClient.totalPages).currentPage ≤ 1 ∧
    (updatePaginationButtons
      (sendGetAssignmentsRequest emptyStoreClient emptyStoreClient.totalPages)).prevPage = true ∧
    (updatePaginationButtons
      (sendGetAssignmentsRequest emptyStoreClient emptyStoreClient.totalPages)).firstPage
        = false := by
  decide

/-! ## Further instances at sample states -/

/-- The two validation failures of the specification: no `name`, and no `dueDate`. -/
theorem postAssignment_validation_witness :
    postAssignment twoRecords { name := none, dueDate := some "2024-01-01", submitted := none } =
      (twoRecords, { status := 400, body := ResBody.error "Missing required field: name" }) ∧
    postAssignment twoRecords { name := some "x", dueDate := none, submitted := none } =
      (twoRecords, { status := 400, body := ResBody.error "Missing required field: dueDate" }) :=
  ⟨(postAssignment_validation twoRecords
      { name := none, dueDate := some "2024-01-01", submitted := none }).1 (Or.inl rfl),
    (postAssignment_validation twoRecords
      { name := some "x", dueDate := none, submitted := none }).2.1
        ⟨"x", rfl, by decide⟩ (Or.inl rfl)⟩

/-- Deleting id 2 from the two-record store. -/
theorem deleteAssignment_spec_witness :
    ∃ l1 a l2, twoRecords.assignments = l1 ++ a :: l2 ∧ (∀ x ∈ l1, x.id ≠ some 2) ∧
      a.id = some 2 ∧
      deleteAssignment twoRecords (JsNum.int 2) =
        ({ assignments := l1 ++ l2, dataFile := twoRecords.dataFile },
          { status := 204, body := ResBody.empty }) ∧
      (l1 ++ l2).length + 1 = twoRecords.assignments.length :=
  (deleteAssignment_spec twoRecords 2).2.2
    ⟨{ id := some 2, name := some "C", dueDate := some "E", submitted := some false },
      by decide, rfl⟩

/-- Updating `{name: "A", dueDate: "D", submitted: true}` with `{name: "B"}`. -/
theorem putAssignment_spec_witness :
    (∃ l1 a l2, oneRecord.assignments = l1 ++ a :: l2 ∧ (∀ x ∈ l1, x.id ≠ some 1) ∧
      a.id = some 1 ∧
      putAssignment oneRecord (JsNum.int 1) { name := some "B", dueDate := none, submitted := none } =
        ({ assignments :=
             l1 ++ { id := a.id, name := some "B", dueDate := none, submitted := none } :: l2,
           dataFile := oneRecord.dataFile },
          { status := 200,
            body := ResBody.record
              { id := a.id, name := some "B", dueDate := none, submitted := none } })) ∧
    putAssignment oneRecord (JsNum.int 1) { name := some "B", dueDate := none, submitted := none } =
      ({ assignments := [{ id := some 1, name := some "B", dueDate := none, submitted := none }],
         dataFile := oneRecord.dataFile },
        { status := 200,
          body := ResBody.record
            { id := some 1, name := some "B", dueDate := none, submitted := none } }) :=
  ⟨(putAssignment_spec oneRecord 1 { name := some "B", dueDate := none, submitted := none }).2.2
      ⟨{ id := some 1, name := some "A", dueDate := some "D", submitted := some true },
        by decide, rfl⟩,
    by decide⟩

end Assignments
